import Mathlib

/-!
Verification of the sales-computation program `compute_sales.py`.

The program's two core operations are embedded shallowly:

* `create_price_catalogue` — builds a title → price mapping from raw,
  loosely-typed catalogue data, skipping invalid entries with diagnostics;
* `compute_sales` — folds raw sale records against the price mapping into a
  running total and an ordered list of validated line items.

Deserialized JSON values are modelled by the inductive type `JValue`
(JSON null maps to Python `None`).  Python numbers are modelled by exact
rationals `ℚ` (the decimal numbers of the data model).  Python exceptions
are modelled by the `Except PyExn` monad: each operation of the source that
can raise (`float` — including its `OverflowError` on integers beyond
double range — `int`, and hashing a dict key) is embedded as an
`Except`-valued function, and each `try/except (ValueError, TypeError)`
block of the source is embedded as an explicit match that handles exactly
those two exception kinds and re-raises any other.  Diagnostics printed by
the source are modelled by the structured type `Diag`, one constructor per
`print` site, in emission order.
-/

namespace ComputeSales

set_option maxRecDepth 8000

/-- Deserialized JSON value, as produced by `json.load`.  `null` doubles as
Python `None`.  Object fields keep their source order; keys are unique in
data produced by a JSON parser.  Numbers are exact rationals: JSON integer
literals become arbitrary-precision Python ints (any rational with
denominator 1), JSON float literals become finite doubles; the non-finite
doubles that extreme float literals would produce are not representable
here. -/
inductive JValue where
  | null
  | bool (b : Bool)
  | num (q : ℚ)
  | str (s : String)
  | arr (xs : List JValue)
  | obj (fields : List (String × JValue))

mutual

/-- Decidable equality on `JValue` (manual, since the inductive nests lists). -/
def JValue.deq : (a b : JValue) → Decidable (a = b)
  | .null, .null => .isTrue rfl
  | .bool a, .bool b =>
    match decEq a b with
    | .isTrue h => .isTrue (by rw [h])
    | .isFalse h => .isFalse (fun hh => h (by cases hh; rfl))
  | .num a, .num b =>
    match decEq a b with
    | .isTrue h => .isTrue (by rw [h])
    | .isFalse h => .isFalse (fun hh => h (by cases hh; rfl))
  | .str a, .str b =>
    match decEq a b with
    | .isTrue h => .isTrue (by rw [h])
    | .isFalse h => .isFalse (fun hh => h (by cases hh; rfl))
  | .arr xs, .arr ys =>
    match JValue.deqList xs ys with
    | .isTrue h => .isTrue (by rw [h])
    | .isFalse h => .isFalse (fun hh => h (by cases hh; rfl))
  | .obj xs, .obj ys =>
    match JValue.deqFields xs ys with
    | .isTrue h => .isTrue (by rw [h])
    | .isFalse h => .isFalse (fun hh => h (by cases hh; rfl))
  | .null, .bool _ => .isFalse (fun h => by cases h)
  | .null, .num _ => .isFalse (fun h => by cases h)
  | .null, .str _ => .isFalse (fun h => by cases h)
  | .null, .arr _ => .isFalse (fun h => by cases h)
  | .null, .obj _ => .isFalse (fun h => JValue.noConfusion h)
  | .bool _, .null => .isFalse (fun h => by cases h)
  | .bool _, .num _ => .isFalse (fun h => by cases h)
  | .bool _, .str _ => .isFalse (fun h => by cases h)
  | .bool _, .arr _ => .isFalse (fun h => by cases h)
  | .bool _, .obj _ => .isFalse (fun h => by cases h)
  | .num _, .null => .isFalse (fun h => by cases h)
  | .num _, .bool _ => .isFalse (fun h => by cases h)
  | .num _, .str _ => .isFalse (fun h => by cases h)
  | .num _, .arr _ => .isFalse (fun h => by cases h)
  | .num _, .obj _ => .isFalse (fun h => by cases h)
  | .str _, .null => .isFalse (fun h => by cases h)
  | .str _, .bool _ => .isFalse (fun h => by cases h)
  | .str _, .num _ => .isFalse (fun h => by cases h)
  | .str _, .arr _ => .isFalse (fun h => by cases h)
  | .str _, .obj _ => .isFalse (fun h => by cases h)
  | .arr _, .null => .isFalse (fun h => by cases h)
  | .arr _, .bool _ => .isFalse (fun h => by cases h)
  | .arr _, .num _ => .isFalse (fun h => by cases h)
  | .arr _, .str _ => .isFalse (fun h => by cases h)
  | .arr _, .obj _ => .isFalse (fun h => by cases h)
  | .obj _, .null => .isFalse (fun h => by cases h)
  | .obj _, .bool _ => .isFalse (fun h => by cases h)
  | .obj _, .num _ => .isFalse (fun h => by cases h)
  | .obj _, .str _ => .isFalse (fun h => by cases h)
  | .obj _, .arr _ => .isFalse (fun h => by cases h)

/-- Decidable equality on lists of `JValue`. -/
def JValue.deqList : (xs ys : List JValue) → Decidable (xs = ys)
  | [], [] => .isTrue rfl
  | [], _ :: _ => .isFalse (fun h => by cases h)
  | _ :: _, [] => .isFalse (fun h => by cases h)
  | x :: xs, y :: ys =>
    match JValue.deq x y, JValue.deqList xs ys with
    | .isTrue h1, .isTrue h2 => .isTrue (by rw [h1, h2])
    | .isFalse h1, _ => .isFalse (fun hh => h1 (by cases hh; rfl))
    | _, .isFalse h2 => .isFalse (fun hh => h2 (by cases hh; rfl))

/-- Decidable equality on object field lists. -/
def JValue.deqFields : (xs ys : List (String × JValue)) → Decidable (xs = ys)
  | [], [] => .isTrue rfl
  | [], _ :: _ => .isFalse (fun h => by cases h)
  | _ :: _, [] => .isFalse (fun h => by cases h)
  | (k1, v1) :: xs, (k2, v2) :: ys =>
    match decEq k1 k2, JValue.deq v1 v2, JValue.deqFields xs ys with
    | .isTrue h0, .isTrue h1, .isTrue h2 => .isTrue (by rw [h0, h1, h2])
    | .isFalse h0, _, _ => .isFalse (fun hh => h0 (by cases hh; rfl))
    | _, .isFalse h1, _ => .isFalse (fun hh => h1 (by cases hh; rfl))
    | _, _, .isFalse h2 => .isFalse (fun hh => h2 (by cases hh; rfl))

end

instance : DecidableEq JValue := JValue.deq

/-- Decidable equality of `Except` results, for evaluating the embedded
functions on concrete inputs. -/
instance {ε α : Type} [DecidableEq ε] [DecidableEq α] : DecidableEq (Except ε α) :=
  fun a b =>
    match a, b with
    | .ok x, .ok y =>
      match decEq x y with
      | .isTrue h => .isTrue (by rw [h])
      | .isFalse h => .isFalse (fun hh => h (by cases hh; rfl))
    | .error x, .error y =>
      match decEq x y with
      | .isTrue h => .isTrue (by rw [h])
      | .isFalse h => .isFalse (fun hh => h (by cases hh; rfl))
    | .ok _, .error _ => .isFalse (fun h => by cases h)
    | .error _, .ok _ => .isFalse (fun h => by cases h)

/-- Python exception kinds relevant to the program: `ValueError` and
`TypeError` are the ones its `try/except` clauses catch; `overflowError`
models `OverflowError`, raised by `float()` on an integer beyond double
range and caught by no handler in this program; `otherError` stands for
every other exception class (likewise never caught here). -/
inductive PyExn where
  | valueError
  | typeError
  | overflowError
  | otherError
deriving DecidableEq

/-- One structured diagnostic per `print` site of the two core functions,
carrying the data the printed message interpolates. -/
inductive Diag where
  | catalogueNotAList
  | itemNotDict (idx : ℕ)
  | missingTitle (idx : ℕ)
  | missingPrice (title : JValue)
  | invalidPrice (title : JValue)
  | salesNotAList
  | saleNotDict (idx : ℕ)
  | missingProduct (idx : ℕ)
  | missingQuantity (idx : ℕ)
  | invalidQuantity (idx : ℕ)
  | productNotFound (product : JValue)
deriving DecidableEq

/-- Python `d.get(key)`: the field value when the key is present, `None`
(here `JValue.null`) when absent.  A present field holding JSON null also
yields `None`, indistinguishable from absence — exactly as in Python. -/
def pyGet (fields : List (String × JValue)) (key : String) : JValue :=
  match fields.find? (fun p => p.1 == key) with
  | some p => p.2
  | none => JValue.null

/-- Python `d.get(key, dflt)`: the field value when the key is present
(even when that value is null), `dflt` when the key is absent. -/
def pyGetD (fields : List (String × JValue)) (key : String) (dflt : JValue) : JValue :=
  match fields.find? (fun p => p.1 == key) with
  | some p => p.2
  | none => dflt

/-- Value of a list of decimal digit characters, most significant first. -/
def digitsVal : List Char → ℕ → ℕ
  | [], acc => acc
  | c :: cs, acc => digitsVal cs (acc * 10 + (c.toNat - Char.toNat '0'))

/-- Models the string branch of Python `int(s)`: an optional sign followed
by a nonempty run of decimal digits (surrounding whitespace and digit-group
underscores, which Python also accepts, are outside the scope of the
claims).  A fractional literal such as "3.9" is rejected, as in Python. -/
def parseIntStr (s : String) : Option ℤ :=
  match s.toList with
  | '-' :: rest =>
    if !rest.isEmpty && rest.all Char.isDigit then some (-(digitsVal rest 0 : ℤ)) else none
  | '+' :: rest =>
    if !rest.isEmpty && rest.all Char.isDigit then some ((digitsVal rest 0 : ℤ)) else none
  | cs =>
    if !cs.isEmpty && cs.all Char.isDigit then some ((digitsVal cs 0 : ℤ)) else none

/-- Unsigned decimal literal: digits, optionally followed by a point and
further digits, at least one digit overall. -/
def parseUnsignedDec (cs : List Char) : Option ℚ :=
  let ip := cs.takeWhile Char.isDigit
  let rest := cs.dropWhile Char.isDigit
  match rest with
  | [] => if ip.isEmpty then none else some ((digitsVal ip 0 : ℚ))
  | c :: frac =>
    if c == '.' && frac.all Char.isDigit && (!ip.isEmpty || !frac.isEmpty) then
      some ((digitsVal ip 0 : ℚ) + (digitsVal frac 0 : ℚ) / ((10 : ℚ) ^ frac.length))
    else none

/-- Models the string branch of Python `float(s)` on plain decimal
literals: an optionally signed integer or fraction form.  Python
additionally accepts scientific notation, surrounding whitespace,
digit-group underscores, and the special words inf, infinity and nan
(optionally signed, case-insensitive), which produce non-finite doubles.
Non-finite values have no exact-rational counterpart, so such strings are
treated as not coercible here, whereas the real program stores the
resulting inf/nan in the price map unchecked — which is why no finiteness
invariant is claimed for the stored prices. -/
def parseFloatStr (s : String) : Option ℚ :=
  match s.toList with
  | '-' :: rest => (parseUnsignedDec rest).map (fun q => -q)
  | '+' :: rest => parseUnsignedDec rest
  | cs => parseUnsignedDec cs

/-- Truncation of a rational toward zero, the behaviour of Python
`int(float)`: floor for non-negative values, ceiling for negative ones. -/
def ratTrunc (q : ℚ) : ℤ := if 0 ≤ q then ⌊q⌋ else ⌈q⌉

/-- Whether Python `float()` overflows on the number `q`: true exactly for
an integer (denominator 1) of magnitude at least 2^1024.  JSON integers
deserialize to arbitrary-precision Python ints, while JSON float literals
are already finite doubles, so non-integral rationals never overflow.  The
exact round-to-nearest cutoff is 2^1024 − 2^970; the difference of less
than one ulp is immaterial to the claims. -/
def floatOverflows (q : ℚ) : Bool :=
  q.den == 1 && decide ((2 : ℕ) ^ 1024 ≤ q.num.natAbs)

/-- Models Python `float(v)` on deserialized JSON values, `none` meaning
the call raises: numbers convert to themselves, except that an integer
beyond double range raises `OverflowError`; booleans convert to 0/1,
strings parse as decimal literals; `None`, lists and dicts fail. -/
def pyFloat : JValue → Option ℚ
  | .num q => if floatOverflows q then none else some q
  | .bool b => some (if b then 1 else 0)
  | .str s => parseFloatStr s
  | _ => none

/-- Models Python `int(v)` on deserialized JSON values, `none` meaning the
call raises: numbers truncate toward zero, booleans give 0/1, strings must
be integer literals; `None`, lists and dicts fail. -/
def pyInt : JValue → Option ℤ
  | .num q => some (ratTrunc q)
  | .bool b => some (if b then 1 else 0)
  | .str s => parseIntStr s
  | _ => none

/-- Whether a value is usable as a Python dict key: lists and dicts are
unhashable (hashing one raises `TypeError`), every other JSON value is
hashable. -/
def JValue.hashable : JValue → Bool
  | .arr _ => false
  | .obj _ => false
  | _ => true

/-- Python `float(v)` as an exception-raising operation: strings that fail
to parse raise `ValueError`, out-of-range integers raise `OverflowError`,
non-numeric non-string values raise `TypeError`. -/
def tryFloat (v : JValue) : Except PyExn ℚ :=
  match pyFloat v with
  | some q => .ok q
  | none =>
    match v with
    | .str _ => .error .valueError
    | .num _ => .error .overflowError
    | _ => .error .typeError

/-- Python `int(v)` as an exception-raising operation: strings that fail to
parse raise `ValueError`, non-numeric non-string values raise
`TypeError`. -/
def tryInt (v : JValue) : Except PyExn ℤ :=
  match pyInt v with
  | some n => .ok n
  | none =>
    match v with
    | .str _ => .error .valueError
    | _ => .error .typeError

/-- The price mapping is modelled as an association list in dict insertion
order.  First-match lookup agrees with Python dict lookup because
`insertAL` keeps keys unique. -/
def lookupAL : List (JValue × ℚ) → JValue → Option ℚ
  | [], _ => none
  | (k, q) :: rest, t => if k = t then some q else lookupAL rest t

/-- Python dict assignment `m[k] = q` on an association list: updates the
value in place when the key is already present, appends otherwise. -/
def insertAL : List (JValue × ℚ) → JValue → ℚ → List (JValue × ℚ)
  | [], k, q => [(k, q)]
  | (k1, q1) :: rest, k, q =>
    if k1 = k then (k1, q) :: rest else (k1, q1) :: insertAL rest k q

/-- Python `m[k] = q` as an exception-raising operation: hashing an
unhashable key raises `TypeError`. -/
def dictInsert (m : List (JValue × ℚ)) (k : JValue) (q : ℚ) :
    Except PyExn (List (JValue × ℚ)) :=
  if k.hashable then .ok (insertAL m k q) else .error .typeError

/-- Body of the loop of `create_price_catalogue` over the catalogue items,
carrying the running index, the price map and the emitted diagnostics.
Each iteration mirrors the source: skip non-dict items, skip a null/absent
title, skip a null/absent price, then run the `try` block
(`price = float(price); price_map[title] = price`) and catch `ValueError`
and `TypeError` as a skip-with-diagnostic; any other exception — in
particular the `OverflowError` of `float` on an out-of-range integer —
propagates. -/
def createGo : List JValue → ℕ → List (JValue × ℚ) → List Diag →
    Except PyExn (List (JValue × ℚ) × List Diag)
  | [], _, priceMap, diags => .ok (priceMap, diags)
  | item :: rest, idx, priceMap, diags =>
    match item with
    | .obj fields =>
      let title := pyGet fields "title"
      let price := pyGet fields "price"
      if title = JValue.null then
        createGo rest (idx + 1) priceMap (diags ++ [.missingTitle idx])
      else if price = JValue.null then
        createGo rest (idx + 1) priceMap (diags ++ [.missingPrice title])
      else
        match (tryFloat price).bind (fun q => dictInsert priceMap title q) with
        | .ok m2 => createGo rest (idx + 1) m2 diags
        | .error .valueError => createGo rest (idx + 1) priceMap (diags ++ [.invalidPrice title])
        | .error .typeError => createGo rest (idx + 1) priceMap (diags ++ [.invalidPrice title])
        | .error e => .error e
    | _ => createGo rest (idx + 1) priceMap (diags ++ [.itemNotDict idx])

/-- Embedding of `create_price_catalogue(catalogue_data)`: returns the
price map together with the diagnostics it printed, inside the exception
monad (`.error` would mean an uncaught exception escapes the function). -/
def create_price_catalogue (catalogue_data : JValue) :
    Except PyExn (List (JValue × ℚ) × List Diag) :=
  match catalogue_data with
  | .arr items => createGo items 0 [] []
  | _ => .ok ([], [.catalogueNotAList])

/-- Validated sale line item, one per accepted sale record, mirroring the
dict appended to `sales_details` in the source. -/
structure SaleLineItem where
  sale_id : JValue
  date : JValue
  product : JValue
  quantity : ℤ
  unit_price : ℚ
  sales_cost : ℚ
deriving DecidableEq

/-- Outcome of processing one sale record at index `idx` in
`compute_sales`, mirroring the per-record gates of the source in order:
non-dict record, absent/null `Product`, absent/null `Quantity`, the `try`
around `int(quantity)` catching `ValueError`/`TypeError`, then the
catalogue membership test `product not in price_catalogue` — which hashes
`product` outside any `try`, so an unhashable product raises an uncaught
`TypeError`.  `.ok (some item, _)` is acceptance, `.ok (none, ds)` a skip
with its diagnostics, `.error` an escaping exception. -/
def saleOutcome (cat : List (JValue × ℚ)) (idx : ℕ) (sale : JValue) :
    Except PyExn (Option SaleLineItem × List Diag) :=
  match sale with
  | .obj fields =>
    let product := pyGet fields "Product"
    let quantity := pyGet fields "Quantity"
    let sale_id := pyGetD fields "SALE_ID" (.str "N/A")
    let sale_date := pyGetD fields "SALE_Date" (.str "N/A")
    if product = JValue.null then .ok (none, [.missingProduct idx])
    else if quantity = JValue.null then .ok (none, [.missingQuantity idx])
    else
      match tryInt quantity with
      | .error .valueError => .ok (none, [.invalidQuantity idx])
      | .error .typeError => .ok (none, [.invalidQuantity idx])
      | .error e => .error e
      | .ok n =>
        if product.hashable then
          match lookupAL cat product with
          | none => .ok (none, [.productNotFound product])
          | some unit_price =>
            .ok (some { sale_id := sale_id, date := sale_date, product := product,
                        quantity := n, unit_price := unit_price,
                        sales_cost := unit_price * (n : ℚ) }, [])
        else .error .typeError
  | _ => .ok (none, [.saleNotDict idx])

/-- Body of the loop of `compute_sales` over the sale records, carrying the
running index, total, collected line items and emitted diagnostics.  An
accepted record adds its cost to the total and appends its line item; a
skipped record appends its diagnostics; an exception aborts the loop. -/
def computeGo (cat : List (JValue × ℚ)) :
    List JValue → ℕ → ℚ → List SaleLineItem → List Diag →
    Except PyExn (ℚ × List SaleLineItem × List Diag)
  | [], _, total, details, diags => .ok (total, details, diags)
  | sale :: rest, idx, total, details, diags =>
    match saleOutcome cat idx sale with
    | .error e => .error e
    | .ok (some item, ds) =>
      computeGo cat rest (idx + 1) (total + item.sales_cost) (details ++ [item]) (diags ++ ds)
    | .ok (none, ds) => computeGo cat rest (idx + 1) total details (diags ++ ds)

/-- Embedding of `compute_sales(sales_data, price_catalogue)`: returns the
total cost, the ordered line items and the diagnostics printed, inside the
exception monad (`.error` means the call raises). -/
def compute_sales (sales_data : JValue) (price_catalogue : List (JValue × ℚ)) :
    Except PyExn (ℚ × List SaleLineItem × List Diag) :=
  match sales_data with
  | .arr sales => computeGo price_catalogue sales 0 0 [] []
  | _ => .ok (0, [], [.salesNotAList])

/-- Whether a JSON value is an array (Python `isinstance(x, list)`). -/
def JValue.isArr : JValue → Bool
  | .arr _ => true
  | _ => false

/-- Pair each list element with its 0-based position, starting at `i`. -/
def enumFrom : ℕ → List α → List (ℕ × α)
  | _, [] => []
  | i, x :: xs => (i, x) :: enumFrom (i + 1) xs

/-- The accepted line item of a record outcome, if any. -/
def okItem : Except PyExn (Option SaleLineItem × List Diag) → Option SaleLineItem
  | .ok (it, _) => it
  | .error _ => none

/-- The diagnostics of a record outcome (none for an escaping exception). -/
def okDiags : Except PyExn (Option SaleLineItem × List Diag) → List Diag
  | .ok (_, ds) => ds
  | .error _ => []

/-- Characterization of one catalogue item: the `(title, price)` pair that
`create_price_catalogue` inserts for it, or `none` when the item is
skipped.  An item contributes exactly when it is a dict with a non-null
title, a non-null price coercible by `float`, and a hashable title (an
unhashable title makes the dict assignment raise `TypeError`, which the
`except` clause turns into a skip). -/
def itemEntry : JValue → Option (JValue × ℚ)
  | .obj fields =>
    let title := pyGet fields "title"
    let price := pyGet fields "price"
    if title = JValue.null then none
    else if price = JValue.null then none
    else
      match pyFloat price with
      | some q => if title.hashable then some (title, q) else none
      | none => none
  | _ => none

/-- Whether processing one catalogue item raises the uncaught
`OverflowError`: the item is a dict with a non-null title and a price that
is an out-of-range integer, so `float(price)` overflows before anything is
caught. -/
def itemOverflows : JValue → Bool
  | .obj fields =>
    let title := pyGet fields "title"
    let price := pyGet fields "price"
    if title = JValue.null then false
    else if price = JValue.null then false
    else
      match price with
      | .num q => floatOverflows q
      | _ => false
  | _ => false

/-- Characterization of the diagnostics `create_price_catalogue` emits for
one catalogue item at index `idx` (empty for an accepted item).  It
describes non-overflowing items; for an item whose price overflows the
loop raises instead of emitting anything (see `createGo_cons`). -/
def itemDiags (idx : ℕ) : JValue → List Diag
  | .obj fields =>
    let title := pyGet fields "title"
    let price := pyGet fields "price"
    if title = JValue.null then [.missingTitle idx]
    else if price = JValue.null then [.missingPrice title]
    else
      match pyFloat price with
      | some _ => if title.hashable then [] else [.invalidPrice title]
      | none => [.invalidPrice title]
  | _ => [.itemNotDict idx]

/-- All diagnostics of the catalogue loop, in input order. -/
def catalogueDiags (idx : ℕ) (items : List JValue) : List Diag :=
  ((enumFrom idx items).map (fun p => itemDiags p.1 p.2)).flatten

/-- The line items accepted by the sales loop, in input order. -/
def acceptedItems (cat : List (JValue × ℚ)) (idx : ℕ) (sales : List JValue) :
    List SaleLineItem :=
  (enumFrom idx sales).filterMap (fun p => okItem (saleOutcome cat p.1 p.2))

/-- All diagnostics of the sales loop, in input order. -/
def emittedDiags (cat : List (JValue × ℚ)) (idx : ℕ) (sales : List JValue) : List Diag :=
  ((enumFrom idx sales).map (fun p => okDiags (saleOutcome cat p.1 p.2))).flatten

/-- Taken from the words of the specification (not from the source): the
titles of the catalogue entries that have both a present (non-null) title
and a price value numerically coercible to a decimal number.  The spec
says the key set of the built mapping equals this set. -/
def specKeyTitles (items : List JValue) : List JValue :=
  items.filterMap fun item =>
    match item with
    | .obj fields =>
      if pyGet fields "title" ≠ JValue.null ∧ (pyFloat (pyGet fields "price")).isSome then
        some (pyGet fields "title")
      else none
    | _ => none

/-- Amended form of `specKeyTitles`: additionally requires the title to be
hashable (not a list or a dict), since storing an unhashable title raises
`TypeError` inside the `try` block and the entry is skipped. -/
def specKeyTitlesHashable (items : List JValue) : List JValue :=
  items.filterMap fun item =>
    match item with
    | .obj fields =>
      if pyGet fields "title" ≠ JValue.null ∧ (pyFloat (pyGet fields "price")).isSome ∧
          (pyGet fields "title").hashable then
        some (pyGet fields "title")
      else none
    | _ => none

/-- The price of the last valid catalogue entry bearing title `t`, if any:
the last-write-wins value the spec prescribes for duplicate titles. -/
def specLastPrice (items : List JValue) (t : JValue) : Option ℚ :=
  ((items.filterMap itemEntry).reverse.find? (fun p => p.1 == t)).map Prod.snd

/-! ### Association-list lemmas -/

lemma lookupAL_insertAL (m : List (JValue × ℚ)) (k : JValue) (q : ℚ) (t : JValue) :
    lookupAL (insertAL m k q) t = if k = t then some q else lookupAL m t := by
  induction m with
  | nil => simp [insertAL, lookupAL]
  | cons p rest ih =>
    obtain ⟨k1, q1⟩ := p
    by_cases h1 : k1 = k
    · subst h1
      by_cases h2 : k1 = t <;> simp [insertAL, lookupAL, h2]
    · by_cases h2 : k1 = t
      · subst h2
        simp [insertAL, lookupAL, h1, Ne.symm h1]
      · simp [insertAL, lookupAL, h1, h2, ih]

lemma mem_keys_insertAL (m : List (JValue × ℚ)) (k : JValue) (q : ℚ) (v : JValue) :
    v ∈ (insertAL m k q).map Prod.fst ↔ v = k ∨ v ∈ m.map Prod.fst := by
  induction m with
  | nil => simp [insertAL]
  | cons p rest ih =>
    obtain ⟨k1, q1⟩ := p
    by_cases h1 : k1 = k
    · subst h1
      rw [insertAL, if_pos rfl]
      simp only [List.map_cons, List.mem_cons]
      tauto
    · rw [insertAL, if_neg h1]
      simp only [List.map_cons, List.mem_cons, ih]
      tauto

/-- Each pair of the map after an insertion is the inserted pair or one of
the old pairs. -/
lemma mem_insertAL (m : List (JValue × ℚ)) (k : JValue) (q : ℚ) (p : JValue × ℚ) :
    p ∈ insertAL m k q → p = (k, q) ∨ p ∈ m := by
  induction m with
  | nil => simp [insertAL]
  | cons hd rest ih =>
    obtain ⟨k1, q1⟩ := hd
    by_cases h1 : k1 = k
    · subst h1
      simp only [insertAL, if_pos rfl, List.mem_cons]
      intro h
      rcases h with h | h <;> tauto
    · simp only [insertAL, if_neg h1, List.mem_cons]
      intro h
      rcases h with h | h
      · tauto
      · rcases ih h with h2 | h2 <;> tauto

/-! ### Catalogue-loop lemmas -/

/-- One step of the catalogue loop: an item whose price is an out-of-range
integer raises the uncaught `OverflowError`; every other item either
inserts its `itemEntry` or appends its `itemDiags`. -/
lemma createGo_cons (item : JValue) (rest : List JValue) (idx : ℕ)
    (m : List (JValue × ℚ)) (ds : List Diag) :
    createGo (item :: rest) idx m ds =
      if itemOverflows item then .error .overflowError
      else
        match itemEntry item with
        | some p => createGo rest (idx + 1) (insertAL m p.1 p.2) ds
        | none => createGo rest (idx + 1) m (ds ++ itemDiags idx item) := by
  cases item with
  | obj fields =>
    simp only [createGo, itemEntry, itemDiags, itemOverflows]
    by_cases h1 : pyGet fields "title" = JValue.null
    · simp [h1]
    · by_cases h2 : pyGet fields "price" = JValue.null
      · simp [h1, h2]
      · cases hp : pyGet fields "price" with
        | null => exact absurd hp h2
        | bool b =>
          have ht : tryFloat (JValue.bool b) = .ok (if b then 1 else 0) := rfl
          by_cases hh : (pyGet fields "title").hashable
          · simp [h1, h2, hp, pyFloat, ht, Except.bind, dictInsert, hh]
          · simp [h1, h2, hp, pyFloat, ht, Except.bind, dictInsert, hh]
        | num q =>
          by_cases hov : floatOverflows q
          · have ht : tryFloat (JValue.num q) = .error .overflowError := by
              simp [tryFloat, pyFloat, hov]
            simp [h1, h2, hp, ht, Except.bind, hov]
          · have hpf : pyFloat (JValue.num q) = some q := by simp [pyFloat, hov]
            have ht : tryFloat (JValue.num q) = .ok q := by simp [tryFloat, hpf]
            by_cases hh : (pyGet fields "title").hashable
            · simp [h1, h2, hp, hpf, ht, Except.bind, dictInsert, hh, hov]
            · simp [h1, h2, hp, hpf, ht, Except.bind, dictInsert, hh, hov]
        | str s =>
          cases hps : parseFloatStr s with
          | some q =>
            have hpf : pyFloat (JValue.str s) = some q := by simp [pyFloat, hps]
            have ht : tryFloat (JValue.str s) = .ok q := by simp [tryFloat, hpf]
            by_cases hh : (pyGet fields "title").hashable
            · simp [h1, h2, hp, hpf, ht, Except.bind, dictInsert, hh]
            · simp [h1, h2, hp, hpf, ht, Except.bind, dictInsert, hh]
          | none =>
            have hpf : pyFloat (JValue.str s) = none := by simp [pyFloat, hps]
            have ht : tryFloat (JValue.str s) = .error .valueError := by
              simp [tryFloat, hpf]
            simp [h1, h2, hp, hpf, ht, Except.bind]
        | arr xs =>
          have ht : tryFloat (JValue.arr xs) = .error .typeError := rfl
          simp [h1, h2, hp, ht, Except.bind, pyFloat]
        | obj fs =>
          have ht : tryFloat (JValue.obj fs) = .error .typeError := rfl
          simp [h1, h2, hp, ht, Except.bind, pyFloat]
  | null => simp [createGo, itemEntry, itemDiags, itemOverflows]
  | bool b => simp [createGo, itemEntry, itemDiags, itemOverflows]
  | num q => simp [createGo, itemEntry, itemDiags, itemOverflows]
  | str s => simp [createGo, itemEntry, itemDiags, itemOverflows]
  | arr xs => simp [createGo, itemEntry, itemDiags, itemOverflows]

lemma itemDiags_of_entry {item : JValue} {p : JValue × ℚ}
    (h : itemEntry item = some p) (idx : ℕ) : itemDiags idx item = [] := by
  cases item with
  | obj fields =>
    simp only [itemEntry] at h
    simp only [itemDiags]
    by_cases h1 : pyGet fields "title" = JValue.null
    · simp [h1] at h
    · by_cases h2 : pyGet fields "price" = JValue.null
      · simp [h1, h2] at h
      · cases hpf : pyFloat (pyGet fields "price") with
        | some q =>
          by_cases hh : (pyGet fields "title").hashable
          · simp [h1, h2, hpf, hh]
          · simp [h1, h2, hpf, hh] at h
        | none => simp [h1, h2, hpf] at h
  | null => simp [itemEntry] at h
  | bool b => simp [itemEntry] at h
  | num q => simp [itemEntry] at h
  | str s => simp [itemEntry] at h
  | arr xs => simp [itemEntry] at h

lemma catalogueDiags_nil (idx : ℕ) : catalogueDiags idx [] = [] := by
  simp [catalogueDiags, enumFrom]

lemma catalogueDiags_cons (idx : ℕ) (item : JValue) (rest : List JValue) :
    catalogueDiags idx (item :: rest) =
      itemDiags idx item ++ catalogueDiags (idx + 1) rest := by
  simp [catalogueDiags, enumFrom]

/-- Master lemma for the catalogue loop: when some item has an overflowing
price the loop raises `OverflowError`; otherwise it returns `.ok`, the
final map is the left fold of `insertAL` over the item entries, and the
final diagnostics are the input-order concatenation of the per-item
ones. -/
lemma createGo_eq (items : List JValue) : ∀ (idx : ℕ) (m : List (JValue × ℚ)) (ds : List Diag),
    createGo items idx m ds =
      if items.any itemOverflows then .error .overflowError
      else .ok ((items.filterMap itemEntry).foldl (fun m p => insertAL m p.1 p.2) m,
                ds ++ catalogueDiags idx items) := by
  induction items with
  | nil => intro idx m ds; simp [createGo, catalogueDiags_nil]
  | cons item rest ih =>
    intro idx m ds
    rw [createGo_cons]
    by_cases hov : itemOverflows item = true
    · simp [hov]
    · rw [if_neg hov, catalogueDiags_cons, List.filterMap_cons]
      cases he : itemEntry item with
      | some p => simp [he, ih, itemDiags_of_entry he, hov]
      | none => simp [he, ih, List.append_assoc, hov]

/-- Extraction from a successful run of the catalogue builder: success
means no price overflowed, and then the returned map and diagnostics have
their fold/concatenation forms. -/
lemma create_ok_eq {items : List JValue} {m : List (JValue × ℚ)} {ds : List Diag}
    (h : create_price_catalogue (.arr items) = .ok (m, ds)) :
    m = (items.filterMap itemEntry).foldl (fun m p => insertAL m p.1 p.2) [] ∧
    ds = catalogueDiags 0 items := by
  have h2 : createGo items 0 [] [] = .ok (m, ds) := h
  rw [createGo_eq] at h2
  by_cases ha : items.any itemOverflows = true
  · rw [if_pos ha] at h2
    cases h2
  · rw [if_neg ha] at h2
    injection h2 with hpair
    simp only [Prod.mk.injEq] at hpair
    exact ⟨hpair.1.symm, hpair.2.symm⟩

lemma mem_keys_foldl_insertAL (entries : List (JValue × ℚ)) :
    ∀ (m : List (JValue × ℚ)) (v : JValue),
    v ∈ (entries.foldl (fun m p => insertAL m p.1 p.2) m).map Prod.fst ↔
      v ∈ m.map Prod.fst ∨ v ∈ entries.map Prod.fst := by
  induction entries with
  | nil => simp
  | cons e es ih =>
    intro m v
    rw [List.foldl_cons, ih, mem_keys_insertAL]
    simp only [List.map_cons, List.mem_cons]
    tauto

lemma mem_foldl_insertAL (entries : List (JValue × ℚ)) :
    ∀ (m : List (JValue × ℚ)) (p : JValue × ℚ),
    p ∈ entries.foldl (fun m p => insertAL m p.1 p.2) m → p ∈ m ∨ p ∈ entries := by
  induction entries with
  | nil => simp
  | cons e es ih =>
    intro m p hp
    rw [List.foldl_cons] at hp
    rcases ih _ _ hp with h | h
    · rcases mem_insertAL _ _ _ _ h with h2 | h2 <;> simp [h2]
    · simp [h]

lemma lookupAL_foldl_insertAL (entries : List (JValue × ℚ)) :
    ∀ (m : List (JValue × ℚ)) (t : JValue),
    lookupAL (entries.foldl (fun m p => insertAL m p.1 p.2) m) t =
      match entries.reverse.find? (fun p => p.1 == t) with
      | some p => some p.2
      | none => lookupAL m t := by
  induction entries with
  | nil => simp
  | cons e es ih =>
    intro m t
    rw [List.foldl_cons, ih, List.reverse_cons, List.find?_append]
    cases hf : es.reverse.find? (fun p => p.1 == t) with
    | some p => simp
    | none =>
      by_cases he : e.1 = t
      · have hb : (e.1 == t) = true := beq_iff_eq.mpr he
        simp [List.find?, he, hb, lookupAL_insertAL]
      · have hb : (e.1 == t) = false := beq_eq_false_iff_ne.mpr he
        simp [List.find?, he, hb, lookupAL_insertAL]

lemma itemEntry_some {item : JValue} {k : JValue} {q : ℚ}
    (h : itemEntry item = some (k, q)) :
    ∃ fields, item = JValue.obj fields ∧ pyGet fields "title" = k ∧
      pyFloat (pyGet fields "price") = some q := by
  cases item with
  | obj fields =>
    refine ⟨fields, rfl, ?_⟩
    simp only [itemEntry] at h
    by_cases h1 : pyGet fields "title" = JValue.null
    · simp [h1] at h
    · by_cases h2 : pyGet fields "price" = JValue.null
      · simp [h1, h2] at h
      · cases hpf : pyFloat (pyGet fields "price") with
        | some q0 =>
          by_cases hh : (pyGet fields "title").hashable
          · simp [h1, h2, hpf, hh] at h
            exact ⟨h.1, by rw [h.2]⟩
          · simp [h1, h2, hpf, hh] at h
        | none => simp [h1, h2, hpf] at h
  | null => simp [itemEntry] at h
  | bool b => simp [itemEntry] at h
  | num q0 => simp [itemEntry] at h
  | str s => simp [itemEntry] at h
  | arr xs => simp [itemEntry] at h

lemma map_fst_filterMap_itemEntry (items : List JValue) :
    (items.filterMap itemEntry).map Prod.fst = specKeyTitlesHashable items := by
  induction items with
  | nil => simp [specKeyTitlesHashable]
  | cons item rest ih =>
    simp only [specKeyTitlesHashable, List.filterMap_cons] at ih ⊢
    cases item with
    | obj fields =>
      by_cases h1 : pyGet fields "title" = JValue.null
      · simp [itemEntry, h1, ih]
      · by_cases h2 : pyGet fields "price" = JValue.null
        · simp [itemEntry, h1, h2, pyFloat, ih]
        · cases hpf : pyFloat (pyGet fields "price") with
          | some q =>
            by_cases hh : (pyGet fields "title").hashable
            · simp [itemEntry, h1, h2, hpf, hh, ih]
            · simp [itemEntry, h1, h2, hpf, hh, ih]
          | none => simp [itemEntry, h1, h2, hpf, ih]
    | null => simp [itemEntry, ih]
    | bool b => simp [itemEntry, ih]
    | num q => simp [itemEntry, ih]
    | str s => simp [itemEntry, ih]
    | arr xs => simp [itemEntry, ih]

/-! ### Sales-loop lemmas -/

lemma acceptedItems_nil (cat : List (JValue × ℚ)) (idx : ℕ) :
    acceptedItems cat idx [] = [] := by
  simp [acceptedItems, enumFrom]

lemma acceptedItems_cons (cat : List (JValue × ℚ)) (idx : ℕ) (s : JValue)
    (rest : List JValue) :
    acceptedItems cat idx (s :: rest) =
      (okItem (saleOutcome cat idx s)).toList ++ acceptedItems cat (idx + 1) rest := by
  simp only [acceptedItems, enumFrom, List.filterMap_cons]
  cases okItem (saleOutcome cat idx s) <;> simp

lemma emittedDiags_nil (cat : List (JValue × ℚ)) (idx : ℕ) :
    emittedDiags cat idx [] = [] := by
  simp [emittedDiags, enumFrom]

lemma emittedDiags_cons (cat : List (JValue × ℚ)) (idx : ℕ) (s : JValue)
    (rest : List JValue) :
    emittedDiags cat idx (s :: rest) =
      okDiags (saleOutcome cat idx s) ++ emittedDiags cat (idx + 1) rest := by
  simp [emittedDiags, enumFrom]

/-- Master lemma for the sales loop: when it returns `.ok`, the line items
are the input-order accepted items, the diagnostics are the input-order
per-record ones, and the total is the accumulator plus the sum of the
accepted line costs. -/
lemma computeGo_ok (cat : List (JValue × ℚ)) (sales : List JValue) :
    ∀ (idx : ℕ) (t : ℚ) (d : List SaleLineItem) (g : List Diag) T D G,
    computeGo cat sales idx t d g = .ok (T, D, G) →
      D = d ++ acceptedItems cat idx sales ∧
      G = g ++ emittedDiags cat idx sales ∧
      T = t + ((acceptedItems cat idx sales).map SaleLineItem.sales_cost).sum := by
  induction sales with
  | nil =>
    intro idx t d g T D G h
    simp only [computeGo, Except.ok.injEq, Prod.mk.injEq] at h
    obtain ⟨h1, h2, h3⟩ := h
    simp [← h1, ← h2, ← h3, acceptedItems_nil, emittedDiags_nil]
  | cons s rest ih =>
    intro idx t d g T D G h
    rw [acceptedItems_cons, emittedDiags_cons]
    simp only [computeGo] at h
    cases ho : saleOutcome cat idx s with
    | error e => rw [ho] at h; cases h
    | ok pr =>
      obtain ⟨oit, ds0⟩ := pr
      rw [ho] at h
      cases oit with
      | some item =>
        obtain ⟨hD, hG, hT⟩ := ih (idx + 1) (t + item.sales_cost) (d ++ [item]) (g ++ ds0) T D G h
        refine ⟨?_, ?_, ?_⟩
        · rw [hD]; simp [okItem]
        · rw [hG]; simp [okDiags]
        · rw [hT]; simp [okItem]; ring
      | none =>
        obtain ⟨hD, hG, hT⟩ := ih (idx + 1) t d (g ++ ds0) T D G h
        refine ⟨?_, ?_, ?_⟩
        · rw [hD]; simp [okItem]
        · rw [hG]; simp [okDiags]
        · rw [hT]; simp [okItem]

/-- C1: the claim says `compute_sales` returns normally for every input,
including records whose `Product` field holds a non-text value such as a
list, and never raises.  The code violates this: a record with a list as
`Product` and a valid `Quantity` reaches the catalogue membership test
`product not in price_catalogue`, which hashes the product outside any
`try` block and raises an uncaught `TypeError`.  This theorem evaluates
the embedded `compute_sales` at that failing input. -/
theorem C1_compute_sales_raises_on_unhashable_product :
    compute_sales (.arr [.obj [("Product", .arr []), ("Quantity", .num 1)]]) [] =
      .error .typeError := by decide

/-- C2, counterexample: the claim says the key set of the built mapping
equals the set of titles of entries with a present title and a coercible
price.  The entry with the list `[]` as title and price 1 has a present
title and a coercible price, so its title lies in the spec key set, yet
the built mapping is empty: storing the unhashable title raises
`TypeError` inside the `try` block and the entry is skipped. -/
theorem C2_counterexample_unhashable_title :
    create_price_catalogue (.arr [.obj [("title", .arr []), ("price", .num 1)]]) =
      .ok ([], [.invalidPrice (.arr [])]) ∧
    JValue.arr [] ∈ specKeyTitles [.obj [("title", .arr []), ("price", .num 1)]] ∧
    JValue.arr [] ∉ (([] : List (JValue × ℚ)).map Prod.fst) := by
  refine ⟨by decide, by decide, by decide⟩

/-- C2, amended: for every catalogue list, the key set of the mapping
returned by `create_price_catalogue` equals the set of titles of entries
that have a present (non-null) and hashable title and a price numerically
coercible to a decimal number. -/
theorem C2_amended_key_set (items : List JValue) (m : List (JValue × ℚ)) (ds : List Diag)
    (h : create_price_catalogue (.arr items) = .ok (m, ds)) (v : JValue) :
    v ∈ m.map Prod.fst ↔ v ∈ specKeyTitlesHashable items := by
  obtain ⟨hm, -⟩ := create_ok_eq h
  subst hm
  rw [mem_keys_foldl_insertAL, map_fst_filterMap_itemEntry]
  simp

/-- C2, witness: the amended key-set theorem applied to a one-entry
catalogue. -/
theorem C2_amended_key_set_witness :
    JValue.str "Pen" ∈ ([(JValue.str "Pen", (1 : ℚ))].map Prod.fst) ↔
      JValue.str "Pen" ∈
        specKeyTitlesHashable [.obj [("title", .str "Pen"), ("price", .num 1)]] :=
  C2_amended_key_set [.obj [("title", .str "Pen"), ("price", .num 1)]]
    [(JValue.str "Pen", 1)] [] (by decide) (JValue.str "Pen")

/-- C3: for every sales input and catalogue, the total cost returned by
`compute_sales` equals the sum, in order, of the `sales_cost` fields of
the returned line items; in particular it is 0 when no record is valid. -/
theorem C3_total_is_sum_of_line_costs (sd : JValue) (cat : List (JValue × ℚ)) (total : ℚ)
    (details : List SaleLineItem) (diags : List Diag)
    (h : compute_sales sd cat = .ok (total, details, diags)) :
    total = (details.map SaleLineItem.sales_cost).sum := by
  cases sd with
  | arr sales =>
    have h2 : computeGo cat sales 0 0 [] [] = .ok (total, details, diags) := h
    obtain ⟨hD, hG, hT⟩ := computeGo_ok cat sales 0 0 [] [] total details diags h2
    simp only [List.nil_append] at hD
    rw [hT, hD]
    simp
  | null => injection h with h2; injection h2 with ha hb; simp_all
  | bool b => injection h with h2; injection h2 with ha hb; simp_all
  | num q => injection h with h2; injection h2 with ha hb; simp_all
  | str s => injection h with h2; injection h2 with ha hb; simp_all
  | obj fields => injection h with h2; injection h2 with ha hb; simp_all

/-- C3, witness: the total-equals-sum theorem applied to a sales list
whose single record is skipped, giving total 0 and no line items. -/
theorem C3_total_is_sum_witness :
    (0 : ℚ) = (([] : List SaleLineItem).map SaleLineItem.sales_cost).sum :=
  C3_total_is_sum_of_line_costs (.arr [.num 7]) [] 0 [] [.saleNotDict 0] (by rfl)

/-- C4: on duplicate titles the mapping holds the price of the last valid
entry in input order: for every catalogue list and every title, looking it
up in the returned mapping gives exactly the price of the last valid entry
bearing that title (and nothing when there is none). -/
theorem C4_duplicate_titles_last_write_wins (items : List JValue)
    (m : List (JValue × ℚ)) (ds : List Diag) (t : JValue)
    (h : create_price_catalogue (.arr items) = .ok (m, ds)) :
    lookupAL m t = specLastPrice items t := by
  obtain ⟨hm, -⟩ := create_ok_eq h
  subst hm
  rw [lookupAL_foldl_insertAL]
  unfold specLastPrice
  cases ((items.filterMap itemEntry).reverse.find? (fun p => p.1 == t)) <;> simp [lookupAL]

/-- C4, witness: two entries titled Pen with prices 1 and 2 yield the
price 2 of the later entry (the same last-write-wins instance as the
1.0/1.5 example of the claim, at integer prices the kernel can
evaluate). -/
theorem C4_last_write_wins_witness :
    lookupAL [(JValue.str "Pen", (2 : ℚ))] (JValue.str "Pen") =
      specLastPrice [.obj [("title", .str "Pen"), ("price", .num 1)],
                     .obj [("title", .str "Pen"), ("price", .num 2)]]
        (JValue.str "Pen") :=
  C4_duplicate_titles_last_write_wins
    [.obj [("title", .str "Pen"), ("price", .num 1)],
     .obj [("title", .str "Pen"), ("price", .num 2)]]
    [(JValue.str "Pen", (2 : ℚ))] [] (JValue.str "Pen") (by decide)

/-- C5: the claim says `create_price_catalogue` returns normally on every
input value and never raises.  The code violates this: `float(price)` on
an integer beyond double range — such as 10^400, which JSON deserializes
to an arbitrary-precision Python int — raises `OverflowError`, and the
clause `except (ValueError, TypeError)` does not catch it, so the
exception escapes the function.  This theorem evaluates the embedded
function at that failing input. -/
theorem C5_create_price_catalogue_raises_on_overflowing_price :
    create_price_catalogue
        (.arr [.obj [("title", .str "A"), ("price", .num ((10 ^ 400 : ℕ) : ℚ))]]) =
      .error .overflowError := by decide

/-- C6, counterexample: the claim says every stored value is non-negative,
but an entry with price −1 is accepted and stored: the code never checks
the sign of a price. -/
theorem C6_counterexample_negative_price :
    create_price_catalogue (.arr [.obj [("title", .str "A"), ("price", .num (-1))]]) =
      .ok ([(.str "A", -1)], []) ∧ ((-1 : ℚ) < 0) := by
  refine ⟨by rfl, by norm_num⟩

/-- C6, amended: every value stored in the mapping is the `float`-coercion
of the raw price of some catalogue entry bearing that key as title.  No
sign or finiteness invariant holds beyond that: the value may be negative
(the code never checks the sign), and in the real program it may even be a
non-finite double (price texts such as inf or nan are accepted by
`float(str)` and stored unchecked); non-finite doubles have no
exact-rational counterpart, so this theorem states the provenance of the
stored values over the finite fragment the embedding covers. -/
theorem C6_amended_stored_values_are_coerced_prices (items : List JValue)
    (m : List (JValue × ℚ)) (ds : List Diag)
    (h : create_price_catalogue (.arr items) = .ok (m, ds))
    (k : JValue) (q : ℚ) (hm : (k, q) ∈ m) :
    ∃ fields, JValue.obj fields ∈ items ∧ pyGet fields "title" = k ∧
      pyFloat (pyGet fields "price") = some q := by
  obtain ⟨hmm, -⟩ := create_ok_eq h
  subst hmm
  rcases mem_foldl_insertAL _ _ _ hm with h3 | h3
  · simp at h3
  · rcases List.mem_filterMap.mp h3 with ⟨item, hitem, hent⟩
    rcases itemEntry_some hent with ⟨fields, rfl, hk, hq⟩
    exact ⟨fields, hitem, hk, hq⟩

/-- C6, witness: the amended provenance theorem applied to a catalogue
whose single entry has the negative price −2. -/
theorem C6_amended_stored_values_witness :
    ∃ fields, JValue.obj fields ∈ [JValue.obj [("title", .str "B"), ("price", .num (-2))]] ∧
      pyGet fields "title" = JValue.str "B" ∧
      pyFloat (pyGet fields "price") = some (-2 : ℚ) :=
  C6_amended_stored_values_are_coerced_prices
    [.obj [("title", .str "B"), ("price", .num (-2))]]
    [(JValue.str "B", (-2 : ℚ))] [] (by rfl) (JValue.str "B") (-2)
    (List.mem_singleton.mpr rfl)

/-- C7: for every input that is not a list, `create_price_catalogue`
returns the empty mapping and `compute_sales` returns total 0 with no line
items, each with its single not-a-list diagnostic and without raising. -/
theorem C7_non_list_inputs_degrade (raw : JValue) (cat : List (JValue × ℚ))
    (h : raw.isArr = false) :
    create_price_catalogue raw = .ok ([], [.catalogueNotAList]) ∧
    compute_sales raw cat = .ok (0, [], [.salesNotAList]) := by
  cases raw <;> simp_all [JValue.isArr, create_price_catalogue, compute_sales]

/-- C7, witness: the degraded results on the number 5 as input. -/
theorem C7_non_list_inputs_witness :
    create_price_catalogue (.num 5) = .ok ([], [.catalogueNotAList]) ∧
    compute_sales (.num 5) [] = .ok (0, [], [.salesNotAList]) :=
  C7_non_list_inputs_degrade (.num 5) [] (by rfl)

/-- C8: the line items returned by `compute_sales` are exactly the
accepted records in input order, and the emitted diagnostics are exactly
the per-record diagnostics in input order. -/
theorem C8_output_order_matches_input_order (sales : List JValue)
    (cat : List (JValue × ℚ)) (T : ℚ) (D : List SaleLineItem) (G : List Diag)
    (h : compute_sales (.arr sales) cat = .ok (T, D, G)) :
    D = acceptedItems cat 0 sales ∧ G = emittedDiags cat 0 sales := by
  have h2 : computeGo cat sales 0 0 [] [] = .ok (T, D, G) := h
  obtain ⟨hD, hG, -⟩ := computeGo_ok cat sales 0 0 [] [] T D G h2
  simp only [List.nil_append] at hD hG
  exact ⟨hD, hG⟩

/-- C8, witness: the order theorem applied to two skipped records, whose
diagnostics come out in input order. -/
theorem C8_output_order_witness :
    ([] : List SaleLineItem) = acceptedItems [] 0 [.num 7, .str "x"] ∧
    [Diag.saleNotDict 0, Diag.saleNotDict 1] = emittedDiags [] 0 [.num 7, .str "x"] :=
  C8_output_order_matches_input_order [.num 7, .str "x"] [] 0 []
    [.saleNotDict 0, .saleNotDict 1] (by rfl)

/-- C10: quantity coercion truncates fractional numbers toward zero but
rejects fractional numeric text: with product A priced 2, quantity 3.9 (a
number) is accepted as 3 (cost 6), the text "3.9" is skipped with a
diagnostic, the text "3" is accepted as 3, quantity −3.9 is accepted as −3
and contributes negatively, and quantity 0 passes validation with cost 0. -/
theorem C10_quantity_coercion_truncates_numbers_rejects_fractional_text :
    compute_sales (.arr [.obj [("Product", .str "A"), ("Quantity", .num (3.9 : ℚ))]])
        [(.str "A", 2)] =
      .ok (6, [⟨.str "N/A", .str "N/A", .str "A", 3, 2, 6⟩], []) ∧
    compute_sales (.arr [.obj [("Product", .str "A"), ("Quantity", .str "3.9")]])
        [(.str "A", 2)] =
      .ok (0, [], [.invalidQuantity 0]) ∧
    compute_sales (.arr [.obj [("Product", .str "A"), ("Quantity", .str "3")]])
        [(.str "A", 2)] =
      .ok (6, [⟨.str "N/A", .str "N/A", .str "A", 3, 2, 6⟩], []) ∧
    compute_sales (.arr [.obj [("Product", .str "A"), ("Quantity", .num (-3.9 : ℚ))]])
        [(.str "A", 2)] =
      .ok (-6, [⟨.str "N/A", .str "N/A", .str "A", -3, 2, -6⟩], []) ∧
    compute_sales (.arr [.obj [("Product", .str "A"), ("Quantity", .num 0)]])
        [(.str "A", 2)] =
      .ok (0, [⟨.str "N/A", .str "N/A", .str "A", 0, 2, 0⟩], []) := by
  have hq1 : ratTrunc (3.9 : ℚ) = 3 := by rw [ratTrunc, if_pos (by norm_num)]; norm_num
  have hq2 : ratTrunc (-3.9 : ℚ) = -3 := by
    rw [ratTrunc, if_neg (by norm_num), show (-3.9 : ℚ) = -(3.9 : ℚ) by norm_num,
      Int.ceil_neg]
    norm_num
  have hq3 : ratTrunc (0 : ℚ) = 0 := by rw [ratTrunc, if_pos (by norm_num)]; norm_num
  refine ⟨?_, ?_, ?_, ?_, ?_⟩ <;>
    simp [compute_sales, computeGo, saleOutcome, pyGet, pyGetD, tryInt, pyInt,
      parseIntStr, digitsVal, hq1, hq2, hq3, JValue.hashable, lookupAL, List.find?] <;>
    norm_num

end ComputeSales
